import Mathlib

/-!
Verification of `g3dMGU_editCustomStepCommonPath.py`, a Maya utility that
edits the common directory path shared by the mGear custom-step attributes
(`preCustomStep` / `postCustomStep`) of a guide node.

The Python string primitives (`str.split`, `str.replace`, `os.path.join`,
`os.path.commonpath`, the regex used by `incrementVersion`) are embedded as
executable Lean functions on `String` / `List Char`, following the CPython
(POSIX `os.path`) semantics.  Host side effects (attribute reads and writes,
dialogs, warnings, errors, filesystem existence) are modelled by an explicit
`World` state plus an `Event` trace.
-/

namespace G3dMGU

/-- Python `str.split(sep)` on character lists, for a non-empty separator:
splits on every non-overlapping occurrence of `sep`, left to right, keeping
empty pieces.  `fuel` bounds the recursion; `s.length` is always enough
because every step consumes at least one character. -/
def pySplitAux (sep : List Char) : Nat → List Char → List (List Char)
  | _, [] => [[]]
  | 0, s => [s]
  | fuel + 1, c :: rest =>
    if sep.isPrefixOf (c :: rest) then
      [] :: pySplitAux sep fuel ((c :: rest).drop sep.length)
    else
      match pySplitAux sep fuel rest with
      | [] => [[c]]
      | piece :: pieces => (c :: piece) :: pieces

/-- Python `s.split(sep)` for strings (callers only use non-empty `sep`). -/
def pySplit (s sep : String) : List String :=
  (pySplitAux sep.data s.data.length s.data).map (fun l => ⟨l⟩)

/-- Python `str.replace` scan for a non-empty pattern `old`: at each position,
if `old` matches, emit `new` and skip over the match, otherwise copy one
character.  `fuel` bounds the recursion; `s.length` is always enough. -/
def pyReplaceAux (old new : List Char) : Nat → List Char → List Char
  | _, [] => []
  | 0, s => s
  | fuel + 1, c :: rest =>
    if old.isPrefixOf (c :: rest) then
      new ++ pyReplaceAux old new fuel ((c :: rest).drop old.length)
    else
      c :: pyReplaceAux old new fuel rest

/-- Python `s.replace(old, new)`.  For an empty `old`, CPython inserts `new`
before every character and once more at the end. -/
def pyReplace (s old new : String) : String :=
  if old.data.isEmpty then
    ⟨new.data ++ (s.data.map (fun c => c :: new.data)).flatten⟩
  else
    ⟨pyReplaceAux old.data new.data s.data.length s.data⟩

/-- Python `sep.join(pieces)`. -/
def joinSep (sep : String) : List String → String
  | [] => ""
  | [x] => x
  | x :: y :: xs => x ++ sep ++ joinSep sep (y :: xs)

/-- CPython `posixpath.join` restricted to two arguments, as called by
`checkFileExistence` (source line 250). -/
def osPathJoin (a b : String) : String :=
  if ("/".data).isPrefixOf b.data then b
  else if a.data.isEmpty || ("/".data).isSuffixOf a.data then a ++ b
  else a ++ "/" ++ b

/-- Numeric value of a decimal digit string, as CPython `int` parses an
all-digit string (leading zeros allowed). -/
def decimalVal (ds : List Char) : Nat :=
  ds.foldl (fun acc c => acc * 10 + (c.toNat - ('0').toNat)) 0

/-- CPython format specifier `02d` applied to a non-negative integer:
decimal digits, zero-padded to a minimum width of two. -/
def pyFormat02 (n : Nat) : String :=
  if n < 10 then "0" ++ Nat.repr n else Nat.repr n

/-- Model of `incrementVersion` (source lines 118-135).  The regex
`(.*)(_v\d+)$` with greedy `(.*)` matches exactly when the path ends in a
non-empty maximal run of decimal digits preceded by `_v`; the second group is
that suffix.  `int(version[2:]) + 1` increments the numeric part, and the
result is `f"{base}_v{newVersion:02d}"`.  (Digits are ASCII, the only kind
occurring in these version suffixes.) -/
def incrementVersion (path : String) : String :=
  let cs := path.data
  let ds := (cs.reverse.takeWhile Char.isDigit).reverse
  let stem := cs.take (cs.length - ds.length)
  if ds.length ≠ 0 ∧ stem.reverse.take 2 = ['v', '_'] then
    let base := stem.take (stem.length - 2)
    (⟨base⟩ : String) ++ "_v" ++ pyFormat02 (decimalVal ds + 1)
  else path

/-- Generic boolean lexicographic comparison of lists, given a strict
comparison `ltb` on the elements.  A shorter list that agrees with the start
of a longer one is smaller, exactly as in Python. -/
def lexLt (ltb : α → α → Bool) : List α → List α → Bool
  | [], [] => false
  | [], _ :: _ => true
  | _ :: _, [] => false
  | x :: xs, y :: ys => if ltb x y then true else if ltb y x then false else lexLt ltb xs ys

/-- Python character comparison, by Unicode code point. -/
def charLt (c d : Char) : Bool := decide (c.toNat < d.toNat)

/-- Python string comparison `a < b`: lexicographic by code point. -/
def pyStrLt (a b : String) : Bool := lexLt charLt a.data b.data

/-- Python list comparison `a < b` for lists of strings: lexicographic, the
element order being the string order. -/
def pyListLt (a b : List String) : Bool := lexLt pyStrLt a b

/-- Python `min` over a non-empty list: first element as initial candidate,
a strictly smaller element replaces it, so the leftmost minimum wins. -/
def pyMinList (x : List String) (xs : List (List String)) : List String :=
  xs.foldl (fun acc y => if pyListLt y acc then y else acc) x

/-- Python `max` over a non-empty list: the leftmost maximum wins. -/
def pyMaxList (x : List String) (xs : List (List String)) : List String :=
  xs.foldl (fun acc y => if pyListLt acc y then y else acc) x

/-- Final loop of CPython `posixpath.commonpath`: `common = s1;
for i, c in enumerate(s1): if c != s2[i]: common = s1[:i]; break`.
`none` models the `IndexError` raised when `s2` is exhausted while `s1` still
agrees with it (which cannot happen for `s1 = min`, `s2 = max`). -/
def commonLoop : List String → List String → Option (List String)
  | [], _ => some []
  | _ :: _, [] => none
  | a :: xs, b :: ys =>
    if a = b then (commonLoop xs ys).map (fun l => a :: l) else some []

/-- Components of a POSIX path: split on `/`, dropping empty components and
`.` components, as `posixpath.commonpath` does before comparing. -/
def pathComponents (p : String) : List String :=
  (pySplit p "/").filter (fun c => c != "" && c != ".")

/-- Test that a path is absolute in the POSIX sense (`p[:1] == sep`). -/
def isAbs (p : String) : Bool := ("/".data).isPrefixOf p.data

/-- CPython `posixpath.commonpath`, the call at source line 111.  The errors
model the `ValueError`s for an empty sequence and for mixed absolute/relative
paths, and the (unreachable) `IndexError` of the final loop. -/
def commonpath : List String → Except String String
  | [] => Except.error "commonpath() arg is an empty sequence"
  | p :: ps =>
    if (p :: ps).all (fun q => isAbs q == isAbs p) then
      let s1 := pyMinList (pathComponents p) (ps.map pathComponents)
      let s2 := pyMaxList (pathComponents p) (ps.map pathComponents)
      match commonLoop s1 s2 with
      | none => Except.error "list index out of range"
      | some common =>
        Except.ok ((if isAbs p then "/" else "") ++ joinSep "/" common)
    else Except.error "Cant mix absolute and relative paths"

/-- One entry of the comma list: Python `item.split(" | ")[1]`, where the
index raises `IndexError` when the entry has no `" | "` separator. -/
def entryPath (item : String) : Except String String :=
  match (pySplit item " | ").get? 1 with
  | some p => Except.ok p
  | none => Except.error "list index out of range"

/-- List comprehension at source line 110:
`[item.split(" | ")[1] for item in inputString.split(",")]`. -/
def parsePaths (inputString : String) : Except String (List String) :=
  (pySplit inputString ",").mapM entryPath

/-- Model of `extractCommonPath` (source lines 99-115).  Returns the string
the Python function returns, together with a flag recording whether
`cmds.warning` fired (the `except` branch, which returns the empty string). -/
def extractCommonPath (inputString : String) : String × Bool :=
  match parsePaths inputString >>= commonpath with
  | Except.ok cp => (pyReplace cp "\x5c" "/", false)
  | Except.error _ => ("", true)

/-- Observable host effects of one run: attribute writes, `cmds.warning`,
`cmds.error` reports, and modal dialogs (identified by their title).
Diagnostic `print` calls are not recorded. -/
inductive Event
  | setAttr (attr value : String)
  | warning (msg : String)
  | errorMsg (msg : String)
  | dialog (title : String)
deriving DecidableEq

/-- State of the host application visible to this tool: the string attribute
table (full attribute name, value), the nodes listed by
`cmds.ls(type="transform")`, the set of filesystem paths for which
`os.path.exists` is true, the answer the user gives to the missing-files
dialog, and whether `shutil.copytree` would succeed. -/
structure World where
  attrs : List (String × String)
  transforms : List String
  fs : List String
  dialogAnswer : String
  copyOk : Bool
deriving DecidableEq

/-- Model of `cmds.getAttr` on a string attribute: `none` models a raising
call (no such attribute in the scene). -/
def lookupAttr (w : World) (name : String) : Option String :=
  w.attrs.lookup name

/-- Model of `cmds.setAttr` on a string attribute: overwrite the binding. -/
def writeAttr (attrs : List (String × String)) (name value : String) :
    List (String × String) :=
  match attrs with
  | [] => [(name, value)]
  | (k, v) :: rest =>
    if k = name then (k, value) :: rest else (k, v) :: writeAttr rest name value

/-- Join one relative path with the base and normalize separators, as at
source line 250. -/
def fullPathOf (basePath p : String) : String :=
  pyReplace (osPathJoin basePath p) "\x5c" "/"

/-- Model of `checkFileExistence` (source lines 234-259): join each path with
the base, normalize separators, and partition into (existing, missing) by
`os.path.exists`, preserving order. -/
def checkFileExistence (fs : List String) (basePath : String) :
    List String → List String × List String
  | [] => ([], [])
  | p :: rest =>
    let fullPath := fullPathOf basePath p
    let r := checkFileExistence fs basePath rest
    if fullPath ∈ fs then (fullPath :: r.1, r.2) else (r.1, fullPath :: r.2)

/-- Model of `updateCustomStepStrings` (source lines 262-315).  The broad
`except` branch is modelled as an error event with no write performed (the
`cmds.error` report is the last action of the function either way, so whether
it raises or returns is not observable here).  `newPath` is an `Option` so
the model also covers a `None` argument, for which `str.replace` raises a
`TypeError` caught by the same handler; no live caller passes `None` (see
`onAddVer`), the branch models the function's own behavior on such an
argument.  Returns the final world and the event trace. -/
def updateCustomStepStrings (w : World) (guide : String) (newPath : Option String)
    (currentCommonPath : String) : World × List Event :=
  match lookupAttr w (guide ++ ".preCustomStep") with
  | none => (w, [Event.errorMsg "Failed to update custom step strings: getAttr"])
  | some pre =>
    match lookupAttr w (guide ++ ".postCustomStep") with
    | none => (w, [Event.errorMsg "Failed to update custom step strings: getAttr"])
    | some post =>
      match newPath with
      | none => (w, [Event.errorMsg "Failed to update custom step strings: TypeError"])
      | some np =>
        let preNew := pyReplace pre currentCommonPath np
        let postNew := pyReplace post currentCommonPath np
        match parsePaths preNew with
        | Except.error _ =>
          (w, [Event.errorMsg "Failed to update custom step strings: IndexError"])
        | Except.ok prePaths =>
          match parsePaths postNew with
          | Except.error _ =>
            (w, [Event.errorMsg "Failed to update custom step strings: IndexError"])
          | Except.ok postPaths =>
            let missing := (checkFileExistence w.fs np (prePaths ++ postPaths)).2
            let write : World × List Event :=
              ({ w with
                  attrs := writeAttr (writeAttr w.attrs (guide ++ ".preCustomStep") preNew)
                    (guide ++ ".postCustomStep") postNew },
               [Event.setAttr (guide ++ ".preCustomStep") preNew,
                Event.setAttr (guide ++ ".postCustomStep") postNew,
                Event.dialog "Success"])
            if missing.isEmpty then write
            else if w.dialogAnswer = "Cancel" then
              (w, [Event.dialog "Missing Files",
                   Event.warning "Update process has been canceled by the user."])
            else
              (write.1, Event.dialog "Missing Files" :: write.2)

/-- Model of `cmds.objExists` applied to an attribute path `node.attr`: the
attribute table holds one entry per existing node attribute. -/
def objExistsAttr (w : World) (name : String) : Bool :=
  (w.attrs.lookup name).isSome

/-- Model of `findGuideNode` (source lines 79-96): try the default candidate,
then every node of `cmds.ls(type="transform")` in listing order.
`Except.error` models the `RuntimeError` raised when no candidate carries the
attribute. -/
def findGuideNode (w : World) (defaultGuide : String := "guide") : Except String String :=
  if objExistsAttr w (defaultGuide ++ ".preCustomStep") then Except.ok defaultGuide
  else
    match w.transforms.find? (fun t => objExistsAttr w (t ++ ".preCustomStep")) with
    | some t => Except.ok t
    | none => Except.error "No valid guide node with attribute preCustomStep found."

/-- Model of `duplicateFolder` (source lines 138-165).  In Maya Python,
`cmds.error` raises a `RuntimeError`, so the `return None` statements after
it are dead code: the function either returns the new folder path or raises.
The raise is modelled as `Except.error`, with the host error report recorded
as an event.  A successful `shutil.copytree` creates the new folder (the
copied tree below it is beyond this model); `w.copyOk = false` models any
exception raised by the copy, for example a destination that already
exists. -/
def duplicateFolder (w : World) (srcFolder : String) :
    World × Except String String × List Event :=
  if srcFolder ∈ w.fs then
    let newFolder := incrementVersion srcFolder
    if w.copyOk then
      ({ w with fs := newFolder :: w.fs }, Except.ok newFolder, [Event.dialog "Success"])
    else
      (w, Except.error ("Failed to duplicate folder: " ++ newFolder),
        [Event.errorMsg ("Failed to duplicate folder: " ++ newFolder)])
  else
    (w, Except.error ("Source folder does not exist: " ++ srcFolder),
      [Event.errorMsg ("Source folder does not exist: " ++ srcFolder)])

/-- Model of the `onAddVer` dialog action (source lines 181-184) as wired by
`main` (source lines 335-338): duplicate the current-path folder, close the
dialog, then invoke the confirm continuation — which is
`updateCustomStepStrings guide newPath customCommonPath`.  The action has no
exception handler, so when `duplicateFolder` raises (via `cmds.error`), the
exception propagates out of the callback: neither `cmds.deleteUI` nor
`onConfirm` runs, and the trace ends with the failure report already emitted
inside `duplicateFolder`. -/
def onAddVer (w : World) (currentPath guide currentCommonPath : String) :
    World × List Event :=
  match duplicateFolder w currentPath with
  | (w1, Except.error _, evs) => (w1, evs)
  | (w1, Except.ok newFolder, evs) =>
    let upd := updateCustomStepStrings w1 guide (some newFolder) currentCommonPath
    (upd.1, evs ++ upd.2)

/-- Occurrence of `needle` as a contiguous substring of `hay`, the condition
under which Python `hay.replace(needle, new)` changes anything. -/
def occursIn (needle hay : String) : Prop := needle.data <:+: hay.data

instance (needle hay : String) : Decidable (occursIn needle hay) :=
  List.decidableInfix needle.data hay.data

/-- Example world: the two referenced files exist under `/p`; the
missing-files dialog would not be cancelled. -/
def worldPresent : World :=
  ⟨[("guide.preCustomStep", "a | /p/x.py"), ("guide.postCustomStep", "b | /p/y.py")],
    [], ["/p/x.py", "/p/y.py"], "", true⟩

/-- Example world: no file exists on disk and the user answers the
missing-files dialog with Cancel. -/
def worldCancel : World :=
  ⟨[("guide.preCustomStep", "a | /old/x.py"), ("guide.postCustomStep", "b | /old/y.py")],
    [], [], "Cancel", true⟩

section LexOrder

variable {α : Type} (ltb : α → α → Bool)

theorem lexLt_cons_cons (x y : α) (xs ys : List α) :
    lexLt ltb (x :: xs) (y :: ys) =
      if ltb x y then true else if ltb y x then false else lexLt ltb xs ys := rfl

theorem lexLt_irrefl (hirr : ∀ x, ltb x x = false) :
    ∀ l, lexLt ltb l l = false := by
  intro l
  induction l with
  | nil => rfl
  | cons x xs ih => simp [lexLt_cons_cons, hirr, ih]

theorem lexLt_conn (hconn : ∀ x y, ltb x y = false → ltb y x = false → x = y) :
    ∀ a b, lexLt ltb a b = false → lexLt ltb b a = false → a = b := by
  intro a
  induction a with
  | nil =>
    intro b h1 h2
    cases b with
    | nil => rfl
    | cons y ys => simp [lexLt] at h1
  | cons x xs ih =>
    intro b h1 h2
    cases b with
    | nil => simp [lexLt] at h2
    | cons y ys =>
      rw [lexLt_cons_cons] at h1 h2
      by_cases hxy : ltb x y = true
      · simp [hxy] at h1
      · by_cases hyx : ltb y x = true
        · simp [hyx] at h2
        · rw [Bool.not_eq_true] at hxy hyx
          simp [hxy, hyx] at h1 h2
          rw [hconn x y hxy hyx, ih ys h1 h2]

theorem lexLt_asymm (hasym : ∀ x y, ltb x y = true → ltb y x = false) :
    ∀ a b, lexLt ltb a b = true → lexLt ltb b a = false := by
  intro a
  induction a with
  | nil =>
    intro b h
    cases b with
    | nil => simp [lexLt] at h
    | cons y ys => simp [lexLt]
  | cons x xs ih =>
    intro b h
    cases b with
    | nil => simp [lexLt] at h
    | cons y ys =>
      rw [lexLt_cons_cons] at h
      rw [lexLt_cons_cons]
      by_cases hxy : ltb x y = true
      · simp [hasym x y hxy, hxy]
      · rw [Bool.not_eq_true] at hxy
        by_cases hyx : ltb y x = true
        · simp [hxy, hyx] at h
        · rw [Bool.not_eq_true] at hyx
          simp [hxy, hyx] at h ⊢
          exact ih ys h

theorem lexLt_trans (htrans : ∀ x y z, ltb x y = true → ltb y z = true → ltb x z = true)
    (hconn : ∀ x y, ltb x y = false → ltb y x = false → x = y) :
    ∀ a b c, lexLt ltb a b = true → lexLt ltb b c = true → lexLt ltb a c = true := by
  intro a
  induction a with
  | nil =>
    intro b c h1 h2
    cases b with
    | nil => simp [lexLt] at h1
    | cons y ys =>
      cases c with
      | nil => simp [lexLt] at h2
      | cons z zs => rfl
  | cons x xs ih =>
    intro b c h1 h2
    cases b with
    | nil => simp [lexLt] at h1
    | cons y ys =>
      cases c with
      | nil => simp [lexLt] at h2
      | cons z zs =>
        rw [lexLt_cons_cons] at h1 h2 ⊢
        by_cases hxy : ltb x y = true
        · by_cases hyz : ltb y z = true
          · simp [htrans x y z hxy hyz]
          · rw [Bool.not_eq_true] at hyz
            by_cases hzy : ltb z y = true
            · simp [hyz, hzy] at h2
            · rw [Bool.not_eq_true] at hzy
              rw [hconn y z hyz hzy] at hxy
              simp [hxy]
        · rw [Bool.not_eq_true] at hxy
          by_cases hyx : ltb y x = true
          · simp [hxy, hyx] at h1
          · rw [Bool.not_eq_true] at hyx
            have hxyeq : x = y := hconn x y hxy hyx
            subst hxyeq
            simp [hxy] at h1 h2 ⊢
            by_cases hxz : ltb x z = true
            · simp [hxz]
            · rw [Bool.not_eq_true] at hxz
              simp [hxz] at h2 ⊢
              exact ⟨h2.1, ih ys zs h1 h2.2⟩

end LexOrder

theorem charLt_irrefl (c : Char) : charLt c c = false := by simp [charLt]

theorem charLt_asymm (c d : Char) (h : charLt c d = true) : charLt d c = false := by
  simp [charLt] at h ⊢
  omega

theorem charLt_trans (c d e : Char) (h1 : charLt c d = true) (h2 : charLt d e = true) :
    charLt c e = true := by
  simp [charLt] at h1 h2 ⊢
  omega

theorem charLt_conn (c d : Char) (h1 : charLt c d = false) (h2 : charLt d c = false) :
    c = d := by
  simp [charLt] at h1 h2
  have hn : c.toNat = d.toNat := by omega
  have hv : c.val = d.val := UInt32.toNat.inj hn
  exact Char.eq_of_val_eq hv

theorem pyStrLt_irrefl (s : String) : pyStrLt s s = false :=
  lexLt_irrefl charLt charLt_irrefl s.data

theorem pyStrLt_asymm (a b : String) (h : pyStrLt a b = true) : pyStrLt b a = false :=
  lexLt_asymm charLt charLt_asymm a.data b.data h

theorem pyStrLt_trans (a b c : String) (h1 : pyStrLt a b = true) (h2 : pyStrLt b c = true) :
    pyStrLt a c = true :=
  lexLt_trans charLt charLt_trans charLt_conn a.data b.data c.data h1 h2

theorem pyStrLt_conn (a b : String) (h1 : pyStrLt a b = false) (h2 : pyStrLt b a = false) :
    a = b := by
  have h : a.data = b.data := lexLt_conn charLt charLt_conn a.data b.data h1 h2
  exact congrArg String.mk h

theorem pyListLt_irrefl (l : List String) : pyListLt l l = false :=
  lexLt_irrefl pyStrLt pyStrLt_irrefl l

theorem pyListLt_asymm (a b : List String) (h : pyListLt a b = true) : pyListLt b a = false :=
  lexLt_asymm pyStrLt pyStrLt_asymm a b h

theorem pyListLt_trans (a b c : List String) (h1 : pyListLt a b = true)
    (h2 : pyListLt b c = true) : pyListLt a c = true :=
  lexLt_trans pyStrLt pyStrLt_trans pyStrLt_conn a b c h1 h2

theorem pyListLt_conn (a b : List String) (h1 : pyListLt a b = false)
    (h2 : pyListLt b a = false) : a = b :=
  lexLt_conn pyStrLt pyStrLt_conn a b h1 h2

theorem pyListLt_notLt_trans (a b c : List String) (h1 : pyListLt a b = false)
    (h2 : pyListLt b c = false) : pyListLt a c = false := by
  by_contra h
  rw [Bool.not_eq_false] at h
  by_cases hba : pyListLt b a = true
  · have hbc : pyListLt b c = true := pyListLt_trans b a c hba h
    rw [h2] at hbc
    exact Bool.false_ne_true hbc
  · rw [Bool.not_eq_true] at hba
    have heq : a = b := pyListLt_conn a b h1 hba
    subst heq
    rw [h2] at h
    exact Bool.false_ne_true h

theorem pyMinList_mem (x : List String) (xs : List (List String)) :
    pyMinList x xs ∈ x :: xs := by
  induction xs generalizing x with
  | nil => simp [pyMinList]
  | cons z zs ih =>
    have hstep : pyMinList x (z :: zs) = pyMinList (if pyListLt z x then z else x) zs := rfl
    rw [hstep]
    rcases List.mem_cons.mp (ih (if pyListLt z x then z else x)) with h1 | h1
    · rw [h1]
      by_cases hc : pyListLt z x = true
      · simp [hc]
      · rw [Bool.not_eq_true] at hc
        simp [hc]
    · exact List.mem_cons_of_mem _ (List.mem_cons_of_mem _ h1)

theorem pyMinList_not_lt (x : List String) (xs : List (List String)) :
    ∀ y ∈ x :: xs, pyListLt y (pyMinList x xs) = false := by
  induction xs generalizing x with
  | nil =>
    intro y hy
    rw [List.mem_singleton] at hy
    subst hy
    exact pyListLt_irrefl y
  | cons z zs ih =>
    intro y hy
    have hstep : pyMinList x (z :: zs) = pyMinList (if pyListLt z x then z else x) zs := rfl
    rw [hstep]
    have haccm : pyListLt (if pyListLt z x then z else x)
        (pyMinList (if pyListLt z x then z else x) zs) = false :=
      ih _ _ (List.mem_cons_self _ _)
    rcases List.mem_cons.mp hy with h1 | h1
    · subst h1
      have hd : pyListLt y (if pyListLt z y then z else y) = false := by
        by_cases hc : pyListLt z y = true
        · rw [if_pos hc]
          exact pyListLt_asymm z y hc
        · rw [if_neg hc]
          exact pyListLt_irrefl y
      exact pyListLt_notLt_trans y _ _ hd haccm
    · rcases List.mem_cons.mp h1 with h2 | h2
      · subst h2
        have hd : pyListLt y (if pyListLt y x then y else x) = false := by
          by_cases hc : pyListLt y x = true
          · rw [if_pos hc]
            exact pyListLt_irrefl y
          · rw [if_neg hc]
            rw [Bool.not_eq_true] at hc
            exact hc
        exact pyListLt_notLt_trans y _ _ hd haccm
      · exact ih _ y (List.mem_cons_of_mem _ h2)

theorem pyMaxList_mem (x : List String) (xs : List (List String)) :
    pyMaxList x xs ∈ x :: xs := by
  induction xs generalizing x with
  | nil => simp [pyMaxList]
  | cons z zs ih =>
    have hstep : pyMaxList x (z :: zs) = pyMaxList (if pyListLt x z then z else x) zs := rfl
    rw [hstep]
    rcases List.mem_cons.mp (ih (if pyListLt x z then z else x)) with h1 | h1
    · rw [h1]
      by_cases hc : pyListLt x z = true
      · simp [hc]
      · rw [Bool.not_eq_true] at hc
        simp [hc]
    · exact List.mem_cons_of_mem _ (List.mem_cons_of_mem _ h1)

theorem pyMaxList_not_gt (x : List String) (xs : List (List String)) :
    ∀ y ∈ x :: xs, pyListLt (pyMaxList x xs) y = false := by
  induction xs generalizing x with
  | nil =>
    intro y hy
    rw [List.mem_singleton] at hy
    subst hy
    exact pyListLt_irrefl y
  | cons z zs ih =>
    intro y hy
    have hstep : pyMaxList x (z :: zs) = pyMaxList (if pyListLt x z then z else x) zs := rfl
    rw [hstep]
    have haccm : pyListLt (pyMaxList (if pyListLt x z then z else x) zs)
        (if pyListLt x z then z else x) = false :=
      ih _ _ (List.mem_cons_self _ _)
    rcases List.mem_cons.mp hy with h1 | h1
    · subst h1
      have hd : pyListLt (if pyListLt y z then z else y) y = false := by
        by_cases hc : pyListLt y z = true
        · rw [if_pos hc]
          exact pyListLt_asymm y z hc
        · rw [if_neg hc]
          exact pyListLt_irrefl y
      exact pyListLt_notLt_trans _ _ y haccm hd
    · rcases List.mem_cons.mp h1 with h2 | h2
      · subst h2
        have hd : pyListLt (if pyListLt x y then y else x) y = false := by
          by_cases hc : pyListLt x y = true
          · rw [if_pos hc]
            exact pyListLt_irrefl y
          · rw [if_neg hc]
            rw [Bool.not_eq_true] at hc
            exact hc
        exact pyListLt_notLt_trans _ _ y haccm hd
      · exact ih _ y (List.mem_cons_of_mem _ h2)

theorem commonLoop_isSome (m M : List String) (h : pyListLt M m = false) :
    ∃ c, commonLoop m M = some c := by
  induction m generalizing M with
  | nil => exact ⟨[], rfl⟩
  | cons a xs ih =>
    cases M with
    | nil => simp [pyListLt, lexLt] at h
    | cons b ys =>
      by_cases hab : a = b
      · subst hab
        have h2 : pyListLt ys xs = false := by
          have hu : pyListLt (a :: ys) (a :: xs) =
              if pyStrLt a a then true else if pyStrLt a a then false
              else lexLt pyStrLt ys xs := rfl
          rw [hu, pyStrLt_irrefl a] at h
          simpa using h
        rcases ih ys h2 with ⟨c, hc⟩
        refine ⟨a :: c, ?_⟩
        simp [commonLoop, hc]
      · exact ⟨[], by simp [commonLoop, hab]⟩

theorem commonLoop_cons_cons (a b : String) (xs ys : List String) :
    commonLoop (a :: xs) (b :: ys) =
      if a = b then (commonLoop xs ys).map (fun l => a :: l) else some [] := rfl

theorem commonLoop_le_fst (m M c : List String) (h : commonLoop m M = some c) :
    c <+: m := by
  induction m generalizing M c with
  | nil =>
    have hc : ([] : List String) = c := Option.some.inj h
    rw [← hc]
  | cons a xs ih =>
    cases M with
    | nil => simp [commonLoop] at h
    | cons b ys =>
      rw [commonLoop_cons_cons] at h
      by_cases hab : a = b
      · rw [if_pos hab] at h
        cases hcl : commonLoop xs ys with
        | none =>
          rw [hcl] at h
          simp at h
        | some c2 =>
          rw [hcl] at h
          simp at h
          rw [← h]
          exact List.cons_prefix_cons.mpr ⟨rfl, ih ys c2 hcl⟩
      · rw [if_neg hab] at h
        have hc : ([] : List String) = c := Option.some.inj h
        rw [← hc]
        exact List.nil_prefix

theorem commonLoop_mid (m M x c : List String) (h : commonLoop m M = some c)
    (h1 : pyListLt x m = false) (h2 : pyListLt M x = false) : c <+: x := by
  induction m generalizing M x c with
  | nil =>
    have hc : ([] : List String) = c := Option.some.inj h
    rw [← hc]
    exact List.nil_prefix
  | cons a xs ih =>
    cases M with
    | nil => simp [commonLoop] at h
    | cons b ys =>
      rw [commonLoop_cons_cons] at h
      by_cases hab : a = b
      · subst hab
        rw [if_pos rfl] at h
        cases hcl : commonLoop xs ys with
        | none =>
          rw [hcl] at h
          simp at h
        | some c2 =>
          rw [hcl] at h
          simp at h
          cases x with
          | nil => simp [pyListLt, lexLt] at h1
          | cons u t =>
            have hu1 : pyListLt (u :: t) (a :: xs) =
                if pyStrLt u a then true else if pyStrLt a u then false
                else lexLt pyStrLt t xs := rfl
            have hu2 : pyListLt (a :: ys) (u :: t) =
                if pyStrLt a u then true else if pyStrLt u a then false
                else lexLt pyStrLt ys t := rfl
            rw [hu1] at h1
            rw [hu2] at h2
            by_cases hua : pyStrLt u a = true
            · rw [if_pos hua] at h1
              simp at h1
            · by_cases hau : pyStrLt a u = true
              · rw [if_pos hau] at h2
                simp at h2
              · rw [if_neg hua, if_neg hau] at h1
                rw [if_neg hau, if_neg hua] at h2
                rw [Bool.not_eq_true] at hua hau
                have heq : u = a := pyStrLt_conn u a hua hau
                subst heq
                rw [← h]
                exact List.cons_prefix_cons.mpr ⟨rfl, ih ys t c2 hcl h1 h2⟩
      · rw [if_neg hab] at h
        have hc : ([] : List String) = c := Option.some.inj h
        rw [← hc]
        exact List.nil_prefix

theorem commonLoop_greatest (m M c p : List String) (h : commonLoop m M = some c)
    (h1 : p <+: m) (h2 : p <+: M) : p <+: c := by
  induction m generalizing M c p with
  | nil =>
    have hp : p = [] := List.prefix_nil.mp h1
    have hc : ([] : List String) = c := Option.some.inj h
    rw [hp, ← hc]
  | cons a xs ih =>
    cases M with
    | nil => simp [commonLoop] at h
    | cons b ys =>
      rw [commonLoop_cons_cons] at h
      by_cases hab : a = b
      · subst hab
        rw [if_pos rfl] at h
        cases hcl : commonLoop xs ys with
        | none =>
          rw [hcl] at h
          simp at h
        | some c2 =>
          rw [hcl] at h
          simp at h
          cases p with
          | nil => exact List.nil_prefix
          | cons q qs =>
            rw [List.cons_prefix_cons] at h1 h2
            rcases h1 with ⟨hqa, h1⟩
            rcases h2 with ⟨hqb, h2⟩
            subst hqa
            rw [← h]
            exact List.cons_prefix_cons.mpr ⟨rfl, ih ys c2 qs hcl h1 h2⟩
      · cases p with
        | nil =>
          rw [if_neg hab] at h
          have hc : ([] : List String) = c := Option.some.inj h
          rw [← hc]
        | cons q qs =>
          rw [List.cons_prefix_cons] at h1 h2
          exact absurd (h1.1.symm.trans h2.1) hab

theorem commonpath_spec (p : String) (ps : List String) (b : Bool)
    (habs : ∀ q ∈ p :: ps, isAbs q = b) :
    ∃ common : List String,
      (∀ q ∈ p :: ps, common <+: pathComponents q) ∧
      (∀ l, (∀ q ∈ p :: ps, l <+: pathComponents q) → l <+: common) ∧
      commonpath (p :: ps) =
        Except.ok ((if b then "/" else "") ++ joinSep "/" common) := by
  have hbp : isAbs p = b := habs p (List.mem_cons_self p ps)
  have hall : (p :: ps).all (fun q => isAbs q == isAbs p) = true := by
    rw [List.all_eq_true]
    intro q hq
    rw [beq_iff_eq, habs q hq, hbp]
  have hmem_comp : ∀ q ∈ p :: ps,
      pathComponents q ∈ pathComponents p :: ps.map pathComponents := by
    intro q hq
    rcases List.mem_cons.mp hq with h | h
    · rw [h]
      exact List.mem_cons_self _ _
    · exact List.mem_cons_of_mem _ (List.mem_map_of_mem pathComponents h)
  have hs1mem := pyMinList_mem (pathComponents p) (ps.map pathComponents)
  have hs2mem := pyMaxList_mem (pathComponents p) (ps.map pathComponents)
  have hns : pyListLt (pyMaxList (pathComponents p) (ps.map pathComponents))
      (pyMinList (pathComponents p) (ps.map pathComponents)) = false :=
    pyMinList_not_lt _ _ _ hs2mem
  rcases commonLoop_isSome _ _ hns with ⟨common, hcl⟩
  refine ⟨common, ?_, ?_, ?_⟩
  · intro q hq
    exact commonLoop_mid _ _ (pathComponents q) common hcl
      (pyMinList_not_lt _ _ _ (hmem_comp q hq))
      (pyMaxList_not_gt _ _ _ (hmem_comp q hq))
  · intro l hl
    have hls1 : l <+: pyMinList (pathComponents p) (ps.map pathComponents) := by
      rcases List.mem_cons.mp hs1mem with h | h
      · rw [h]
        exact hl p (List.mem_cons_self p ps)
      · rcases List.mem_map.mp h with ⟨q, hq, hqe⟩
        rw [← hqe]
        exact hl q (List.mem_cons_of_mem _ hq)
    have hls2 : l <+: pyMaxList (pathComponents p) (ps.map pathComponents) := by
      rcases List.mem_cons.mp hs2mem with h | h
      · rw [h]
        exact hl p (List.mem_cons_self p ps)
      · rcases List.mem_map.mp h with ⟨q, hq, hqe⟩
        rw [← hqe]
        exact hl q (List.mem_cons_of_mem _ hq)
    exact commonLoop_greatest _ _ common l hcl hls1 hls2
  · simp only [commonpath]
    rw [if_pos hall, hcl, hbp]

/-- C1: for every well-formed input string — a comma-separated list of
`"label | path"` entries whose parsed path list is `p :: ps`, the paths
agreeing on absoluteness (`isAbs q = b` for all of them) — the string
`extractCommonPath` returns is the longest common directory prefix of the
paths, at path-component granularity, with backslashes normalized to forward
slashes, and no warning is emitted: there is a component list `common` that is
a component-wise prefix of every path, is maximal among all such prefixes, and
the returned value is exactly its joined, normalized rendering. -/
theorem extractCommonPath_common (input : String) (p : String) (ps : List String)
    (b : Bool) (hps : parsePaths input = Except.ok (p :: ps))
    (habs : ∀ q ∈ p :: ps, isAbs q = b) :
    ∃ common : List String,
      (∀ q ∈ p :: ps, common <+: pathComponents q) ∧
      (∀ l, (∀ q ∈ p :: ps, l <+: pathComponents q) → l <+: common) ∧
      extractCommonPath input =
        (pyReplace ((if b then "/" else "") ++ joinSep "/" common) "\x5c" "/", false) := by
  rcases commonpath_spec p ps b habs with ⟨common, h1, h2, h3⟩
  refine ⟨common, h1, h2, ?_⟩
  have hb : parsePaths input >>= commonpath =
      Except.ok ((if b then "/" else "") ++ joinSep "/" common) := by
    rw [hps]
    exact h3
  simp only [extractCommonPath, hb]

/-- C1 witness at the example of the claim: entries `a | /x/y/1.txt` and
`b | /x/y/z/2.txt`. -/
theorem extractCommonPath_common_witness :
    ∃ common : List String,
      (∀ q ∈ ["/x/y/1.txt", "/x/y/z/2.txt"], common <+: pathComponents q) ∧
      (∀ l, (∀ q ∈ ["/x/y/1.txt", "/x/y/z/2.txt"], l <+: pathComponents q) →
        l <+: common) ∧
      extractCommonPath "a | /x/y/1.txt,b | /x/y/z/2.txt" =
        (pyReplace ((if true then "/" else "") ++ joinSep "/" common) "\x5c" "/",
          false) :=
  extractCommonPath_common "a | /x/y/1.txt,b | /x/y/z/2.txt" "/x/y/1.txt"
    ["/x/y/z/2.txt"] true rfl (by decide)

theorem mapM_entryPath_error (l : List String)
    (h : ∃ e ∈ l, (pySplit e " | ").length < 2) :
    ∃ msg, l.mapM entryPath = Except.error msg := by
  induction l with
  | nil =>
    rcases h with ⟨e, he, _⟩
    exact absurd he (List.not_mem_nil e)
  | cons x xs ih =>
    rcases h with ⟨e, he, hlen⟩
    rcases List.mem_cons.mp he with h1 | h1
    · subst h1
      have hx : entryPath e = Except.error "list index out of range" := by
        have hn : (pySplit e " | ").get? 1 = none := by
          rw [List.get?_eq_none]
          omega
        rw [entryPath, hn]
      refine ⟨"list index out of range", ?_⟩
      rw [List.mapM_cons, hx]
      rfl
    · rcases ih ⟨e, h1, hlen⟩ with ⟨msg, hmsg⟩
      cases hex : entryPath x with
      | ok v =>
        refine ⟨msg, ?_⟩
        rw [List.mapM_cons, hex, hmsg]
        rfl
      | error m =>
        refine ⟨m, ?_⟩
        rw [List.mapM_cons, hex]
        rfl

/-- C6: for a malformed input string — one of its comma entries has no
`" | "` separator (the empty input is such a case, its only entry being the
empty string) — `extractCommonPath` does not raise: it returns the empty
string and the warning flag is set (the `except` branch fired
`cmds.warning`). -/
theorem extractCommonPath_malformed (input : String)
    (h : ∃ e ∈ pySplit input ",", (pySplit e " | ").length < 2) :
    extractCommonPath input = ("", true) := by
  rcases mapM_entryPath_error (pySplit input ",") h with ⟨msg, hmsg⟩
  have hp : parsePaths input >>= commonpath = Except.error msg := by
    have hpp : parsePaths input = Except.error msg := hmsg
    rw [hpp]
    rfl
  simp only [extractCommonPath, hp]

/-- C6 witness: an entry without the separator, and the empty input. -/
theorem extractCommonPath_malformed_witness :
    extractCommonPath "abc" = ("", true) ∧ extractCommonPath "" = ("", true) :=
  ⟨extractCommonPath_malformed "abc" (by decide),
   extractCommonPath_malformed "" (by decide)⟩

theorem takeWhile_append_eq (p : Char → Bool) (l1 l2 : List Char) (y : Char)
    (h1 : ∀ x ∈ l1, p x = true) (h2 : p y = false) :
    (l1 ++ y :: l2).takeWhile p = l1 := by
  induction l1 with
  | nil => simp [List.takeWhile_cons, h2]
  | cons a l ih =>
    have ha : p a = true := h1 a (List.mem_cons_self a l)
    simp only [List.cons_append, List.takeWhile_cons, ha, if_true]
    rw [ih (fun x hx => h1 x (List.mem_cons_of_mem a hx))]

theorem take_sub_of_append (l1 l2 : List Char) :
    (l1 ++ l2).take ((l1 ++ l2).length - l2.length) = l1 := by
  have h : (l1 ++ l2).length - l2.length = l1.length := by simp
  rw [h]
  exact List.take_left l1 l2

theorem incrementVersion_append (base ds : String) (hne : ds.data ≠ [])
    (hdig : ∀ c ∈ ds.data, c.isDigit = true) :
    incrementVersion (base ++ "_v" ++ ds) =
      base ++ "_v" ++ pyFormat02 (decimalVal ds.data + 1) := by
  have hdata : (base ++ "_v" ++ ds).data = (base.data ++ ['_', 'v']) ++ ds.data := by
    rw [String.data_append, String.data_append]
  have hrev : ((base.data ++ ['_', 'v']) ++ ds.data).reverse =
      ds.data.reverse ++ 'v' :: '_' :: base.data.reverse := by
    rw [List.reverse_append, List.reverse_append]
    rfl
  have htw : (((base.data ++ ['_', 'v']) ++ ds.data).reverse).takeWhile Char.isDigit =
      ds.data.reverse := by
    rw [hrev]
    refine takeWhile_append_eq _ _ _ _ ?_ rfl
    intro x hx
    exact hdig x (List.mem_reverse.mp hx)
  have htake : ((base.data ++ ['_', 'v']) ++ ds.data).take
      (((base.data ++ ['_', 'v']) ++ ds.data).length - ds.data.length) =
      base.data ++ ['_', 'v'] := take_sub_of_append _ _
  have hvr : ((base.data ++ ['_', 'v']).reverse).take 2 = ['v', '_'] := by
    rw [List.reverse_append]
    rfl
  have hbtake : (base.data ++ ['_', 'v']).take ((base.data ++ ['_', 'v']).length - 2) =
      base.data := take_sub_of_append base.data ['_', 'v']
  simp only [incrementVersion, hdata, htw, List.reverse_reverse, htake]
  rw [if_pos ?hcond]
  case hcond =>
    constructor
    · exact fun hl => hne (List.length_eq_zero.mp hl)
    · rw [hvr]
  rw [hbtake]

/-- C7: `incrementVersion` increments a `_v<digits>` suffix by one, formatting
the new number zero-padded to (a minimum of) two digits, and returns any path
without such a suffix unchanged.  The first part covers every decomposition
`base ++ "_v" ++ digits` (which is exactly when the regex matches), the second
part every path admitting no such decomposition. -/
theorem incrementVersion_spec :
    (∀ base ds : String, ds.data ≠ [] → (∀ c ∈ ds.data, c.isDigit = true) →
      incrementVersion (base ++ "_v" ++ ds) =
        base ++ "_v" ++ pyFormat02 (decimalVal ds.data + 1)) ∧
    (∀ path : String,
      (¬ ∃ base ds : String, ds.data ≠ [] ∧ (∀ c ∈ ds.data, c.isDigit = true) ∧
        path = base ++ "_v" ++ ds) →
      incrementVersion path = path) := by
  constructor
  · exact incrementVersion_append
  · intro path h
    by_cases hcond : ((path.data.reverse.takeWhile Char.isDigit).reverse).length ≠ 0 ∧
        ((path.data.take (path.data.length -
          ((path.data.reverse.takeWhile Char.isDigit).reverse).length)).reverse).take 2 =
          ['v', '_']
    · exfalso
      apply h
      rcases hcond with ⟨hlen, htake2⟩
      rcases List.takeWhile_prefix Char.isDigit
          (l := path.data.reverse) with ⟨t, ht⟩
      have hdig2 : ∀ c ∈ (path.data.reverse.takeWhile Char.isDigit).reverse,
          c.isDigit = true := by
        intro c hc
        exact List.mem_takeWhile_imp (List.mem_reverse.mp hc)
      have hpd : path.data =
          t.reverse ++ (path.data.reverse.takeWhile Char.isDigit).reverse := by
        have h2 := congrArg List.reverse ht
        rw [List.reverse_append] at h2
        simpa using h2.symm
      generalize hu : (path.data.reverse.takeWhile Char.isDigit).reverse = u
        at hlen htake2 hdig2 hpd
      have hstem : path.data.take (path.data.length - u.length) = t.reverse := by
        rw [hpd]
        exact take_sub_of_append t.reverse u
      rw [hstem, List.reverse_reverse] at htake2
      have ht2 : t = ['v', '_'] ++ t.drop 2 := by
        conv_lhs => rw [← List.take_append_drop 2 t]
        rw [htake2]
      have htrev : t.reverse = (t.drop 2).reverse ++ ['_', 'v'] := by
        conv_lhs => rw [ht2]
        rw [List.reverse_append]
        rfl
      refine ⟨⟨(t.drop 2).reverse⟩, ⟨u⟩, ?_, ?_, ?_⟩
      · intro h0
        apply hlen
        have hu0 : u = [] := h0
        rw [hu0]
        rfl
      · intro c hc
        exact hdig2 c hc
      · have hd : path.data = ((t.drop 2).reverse ++ ['_', 'v']) ++ u := by
          rw [hpd, htrev]
        have htgt : ((⟨(t.drop 2).reverse⟩ : String) ++ "_v" ++ (⟨u⟩ : String)).data =
            ((t.drop 2).reverse ++ ['_', 'v']) ++ u := by
          rw [String.data_append, String.data_append]
        calc path = ⟨path.data⟩ := rfl
          _ = _ := by rw [hd, ← htgt]
    · simp only [incrementVersion]
      rw [if_neg hcond]

/-- C7 witness at the examples of the claim: `/proj/shot_v09` increments to
`/proj/shot_v10`, and `/proj/shot` (no version suffix) is unchanged. -/
theorem incrementVersion_spec_witness :
    incrementVersion "/proj/shot_v09" = "/proj/shot_v10" ∧
    incrementVersion "/proj/shot" = "/proj/shot" := by
  constructor
  · have h := incrementVersion_spec.1 "/proj/shot" "09" (by decide) (by decide)
    exact h.trans (by decide)
  · refine incrementVersion_spec.2 "/proj/shot" ?_
    rintro ⟨base, ds, hne, hdig, heq⟩
    have hdata : ("/proj/shot" : String).data = (base.data ++ ['_', 'v']) ++ ds.data := by
      rw [heq, String.data_append, String.data_append]
    cases hds : ds.data with
    | nil => exact hne hds
    | cons c cs =>
      have hlast : ("/proj/shot" : String).data.getLast? = (c :: cs).getLast? := by
        rw [hdata, hds]
        exact List.getLast?_append_of_ne_nil _ (by simp)
      have hmem : (c :: cs).getLast (by simp) ∈ ds.data := by
        rw [hds]
        exact List.getLast_mem _
      have hdigLast : ((c :: cs).getLast (by simp)).isDigit = true := hdig _ hmem
      have hts : ("/proj/shot" : String).data.getLast? = some 't' := by decide
      rw [hts, List.getLast?_eq_getLast _ (by simp)] at hlast
      have hdx : 't' = (c :: cs).getLast (by simp) := Option.some.inj hlast
      have hfinal : ('t').isDigit = true := by
        rw [hdx]
        exact hdigLast
      exact absurd hfinal (by decide)

/-- C10: the incremented version number is formatted with minimum-width-2
zero padding regardless of the width of the input digit run: a three-digit
suffix loses its padding width (`_v001` becomes `_v02`), a suffix at 99 grows
to three digits (`_v99` becomes `_v100`), and in general the result depends
only on the numeric value of the digit suffix, not on how it was padded. -/
theorem incrementVersion_padding :
    incrementVersion "/proj/shot_v001" = "/proj/shot_v02" ∧
    incrementVersion "/proj/shot_v99" = "/proj/shot_v100" ∧
    (∀ base ds ds2 : String, ds.data ≠ [] → (∀ c ∈ ds.data, c.isDigit = true) →
      ds2.data ≠ [] → (∀ c ∈ ds2.data, c.isDigit = true) →
      decimalVal ds.data = decimalVal ds2.data →
      incrementVersion (base ++ "_v" ++ ds) = incrementVersion (base ++ "_v" ++ ds2)) := by
  refine ⟨by decide, by decide, ?_⟩
  intro base ds ds2 h1 h2 h3 h4 hval
  rw [incrementVersion_append base ds h1 h2, incrementVersion_append base ds2 h3 h4, hval]

/-- C10 witness: the differently padded suffixes `001` and `1` denote the same
number, so the incremented paths coincide. -/
theorem incrementVersion_padding_witness :
    incrementVersion ("/proj/shot" ++ "_v" ++ "001") =
      incrementVersion ("/proj/shot" ++ "_v" ++ "1") :=
  incrementVersion_padding.2.2 "/proj/shot" "001" "1" (by decide) (by decide)
    (by decide) (by decide) (by decide)

theorem find?_append_first (p : String → Bool) (l1 l2 : List String) (t : String)
    (h1 : ∀ x ∈ l1, p x = false) (ht : p t = true) :
    (l1 ++ t :: l2).find? p = some t := by
  induction l1 with
  | nil =>
    rw [List.nil_append]
    exact List.find?_cons_of_pos l2 ht
  | cons a l ih =>
    have ha : p a = false := h1 a (List.mem_cons_self a l)
    rw [List.cons_append, List.find?_cons_of_neg _ (by simp [ha])]
    exact ih (fun x hx => h1 x (List.mem_cons_of_mem a hx))

/-- C8: `findGuideNode` returns the default candidate when that node exposes
the `preCustomStep` attribute; otherwise the first node of the transform
listing that exposes it, in listing order; and when no node does, it raises
(modelled as `Except.error`). -/
theorem findGuideNode_spec (w : World) (d : String) :
    (objExistsAttr w (d ++ ".preCustomStep") = true →
      findGuideNode w d = Except.ok d) ∧
    (objExistsAttr w (d ++ ".preCustomStep") = false →
      ∀ l1 t l2, w.transforms = l1 ++ t :: l2 →
        objExistsAttr w (t ++ ".preCustomStep") = true →
        (∀ x ∈ l1, objExistsAttr w (x ++ ".preCustomStep") = false) →
        findGuideNode w d = Except.ok t) ∧
    (objExistsAttr w (d ++ ".preCustomStep") = false →
      (∀ x ∈ w.transforms, objExistsAttr w (x ++ ".preCustomStep") = false) →
      findGuideNode w d =
        Except.error "No valid guide node with attribute preCustomStep found.") := by
  refine ⟨?_, ?_, ?_⟩
  · intro h
    simp only [findGuideNode]
    rw [if_pos h]
  · intro h l1 t l2 htr hattr hnone
    simp only [findGuideNode]
    rw [if_neg (by simp [h]), htr,
      find?_append_first (fun x => objExistsAttr w (x ++ ".preCustomStep")) l1 l2 t
        hnone hattr]
  · intro h hnone
    simp only [findGuideNode]
    rw [if_neg (by simp [h])]
    have hfind : w.transforms.find?
        (fun t => objExistsAttr w (t ++ ".preCustomStep")) = none := by
      rw [List.find?_eq_none]
      intro x hx
      simp [hnone x hx]
    rw [hfind]

/-- C8 witness: a scene where the default candidate lacks the attribute and
`rig` is the first transform carrying it, and a scene with no carrier. -/
theorem findGuideNode_spec_witness :
    findGuideNode ⟨[("rig.preCustomStep", "")], ["a", "rig"], [], "", true⟩ "guide" =
      Except.ok "rig" ∧
    findGuideNode ⟨[], ["a"], [], "", true⟩ "guide" =
      Except.error "No valid guide node with attribute preCustomStep found." :=
  ⟨(findGuideNode_spec ⟨[("rig.preCustomStep", "")], ["a", "rig"], [], "", true⟩
      "guide").2.1 (by decide) ["a"] "rig" [] rfl (by decide) (by decide),
   (findGuideNode_spec ⟨[], ["a"], [], "", true⟩ "guide").2.2 (by decide) (by decide)⟩

theorem checkFileExistence_eq (fs : List String) (basePath : String)
    (paths : List String) :
    checkFileExistence fs basePath paths =
      ((paths.map (fullPathOf basePath)).filter (fun x => decide (x ∈ fs)),
       (paths.map (fullPathOf basePath)).filter (fun x => decide (¬ x ∈ fs))) := by
  induction paths with
  | nil => rfl
  | cons p rest ih =>
    simp only [checkFileExistence, ih, List.map_cons, List.filter_cons]
    by_cases hm : fullPathOf basePath p ∈ fs
    · simp [hm]
    · simp [hm]

/-- C5 (amended): `checkFileExistence` partitions the input list exhaustively,
disjointly and order-preservingly — but in terms of the joined-and-normalized
full paths `fullPathOf basePath p`, not the raw input paths: the existing
output is the filter of the mapped input by filesystem membership, the
missing output its complement, every mapped input path lands in exactly one
output, and the outputs are disjoint. -/
theorem checkFileExistence_partition (fs : List String) (basePath : String)
    (paths : List String) :
    (checkFileExistence fs basePath paths).1 =
      (paths.map (fullPathOf basePath)).filter (fun x => decide (x ∈ fs)) ∧
    (checkFileExistence fs basePath paths).2 =
      (paths.map (fullPathOf basePath)).filter (fun x => decide (¬ x ∈ fs)) ∧
    (∀ p ∈ paths,
      (fullPathOf basePath p ∈ (checkFileExistence fs basePath paths).1 ∧
        fullPathOf basePath p ∉ (checkFileExistence fs basePath paths).2) ∨
      (fullPathOf basePath p ∉ (checkFileExistence fs basePath paths).1 ∧
        fullPathOf basePath p ∈ (checkFileExistence fs basePath paths).2)) ∧
    (∀ x, x ∈ (checkFileExistence fs basePath paths).1 →
      x ∉ (checkFileExistence fs basePath paths).2) := by
  have he := checkFileExistence_eq fs basePath paths
  refine ⟨by rw [he], by rw [he], ?_, ?_⟩
  · intro p hp
    have hmm : fullPathOf basePath p ∈ paths.map (fullPathOf basePath) :=
      List.mem_map_of_mem (fullPathOf basePath) hp
    by_cases hm : fullPathOf basePath p ∈ fs
    · left
      constructor
      · rw [he]
        exact List.mem_filter.mpr ⟨hmm, by simp [hm]⟩
      · rw [he]
        intro hc
        have := (List.mem_filter.mp hc).2
        simp [hm] at this
    · right
      constructor
      · rw [he]
        intro hc
        have := (List.mem_filter.mp hc).2
        simp [hm] at this
      · rw [he]
        exact List.mem_filter.mpr ⟨hmm, by simp [hm]⟩
  · intro x hx
    rw [he] at hx ⊢
    intro hc
    have h1 := (List.mem_filter.mp hx).2
    have h2 := (List.mem_filter.mp hc).2
    simp at h1 h2
    exact h2 h1

/-- C5 witness: base `/b`, one existing and one missing file. -/
theorem checkFileExistence_partition_witness :
    ("/b/a" ∈ (checkFileExistence ["/b/a"] "/b" ["a", "c"]).1 ∧
      "/b/a" ∉ (checkFileExistence ["/b/a"] "/b" ["a", "c"]).2) ∨
    ("/b/a" ∉ (checkFileExistence ["/b/a"] "/b" ["a", "c"]).1 ∧
      "/b/a" ∈ (checkFileExistence ["/b/a"] "/b" ["a", "c"]).2) := by
  have h := (checkFileExistence_partition ["/b/a"] "/b" ["a", "c"]).2.2.1 "a" (by decide)
  have he : fullPathOf "/b" "a" = "/b/a" := by decide
  rw [he] at h
  exact h

/-- C5 counterexample to the claim as stated: with base `/b` and the relative
path `a`, the outputs hold the joined path `/b/a`; the order-preserving union
of the two outputs is not the input list, and the input path `a` appears in
neither output. -/
theorem checkFileExistence_cex :
    checkFileExistence [] "/b" ["a"] = ([], ["/b/a"]) ∧
    (checkFileExistence [] "/b" ["a"]).1 ++ (checkFileExistence [] "/b" ["a"]).2 ≠
      ["a"] ∧
    "a" ∉ (checkFileExistence [] "/b" ["a"]).1 ++ (checkFileExistence [] "/b" ["a"]).2 := by
  decide

theorem infix_of_isPre (l1 l2 : List Char) (h : l1.isPrefixOf l2 = true) :
    l1 <:+: l2 := by
  have hp : l1 <+: l2 := List.isPrefixOf_iff_prefix.mp h
  exact hp.isInfix

theorem infix_cons_ext (a : Char) (l1 l2 : List Char) (h : l1 <:+: l2) :
    l1 <:+: a :: l2 := by
  exact List.infix_cons h

theorem pyReplaceAux_id (old new : List Char) (fuel : Nat) (s : List Char)
    (h : ¬ old <:+: s) : pyReplaceAux old new fuel s = s := by
  induction fuel generalizing s with
  | zero => cases s <;> rfl
  | succ fuel ih =>
    cases s with
    | nil => rfl
    | cons c rest =>
      have hnp : ¬ old.isPrefixOf (c :: rest) = true := by
        intro hp
        exact h (infix_of_isPre old (c :: rest) hp)
      show (if old.isPrefixOf (c :: rest) then
          new ++ pyReplaceAux old new fuel ((c :: rest).drop old.length)
        else c :: pyReplaceAux old new fuel rest) = c :: rest
      rw [if_neg hnp, ih rest (fun hinf => h (infix_cons_ext c old rest hinf))]

theorem pyReplace_id (s old new : String) (h : ¬ occursIn old s) :
    pyReplace s old new = s := by
  have hne : ¬ old.data.isEmpty = true := by
    intro h0
    apply h
    show old.data <:+: s.data
    have h1 : old.data = [] := List.isEmpty_iff.mp h0
    rw [h1]
    exact List.nil_infix
  rw [pyReplace, if_neg hne,
    pyReplaceAux_id old.data new.data s.data.length s.data h]

/-- C2 counterexample to the claim as stated: in `worldCancel` with the
common path `/q`, which occurs in neither attribute string, the substitution
is the identity — but a referenced file is missing and the user answers
Cancel, so NO attribute write is performed, refuting the claim's "yet still
performs the write of both attributes". -/
theorem updateCustomStepStrings_identity_cex :
    ¬ occursIn "/q" "a | /old/x.py" ∧ ¬ occursIn "/q" "b | /old/y.py" ∧
    updateCustomStepStrings worldCancel "guide" (some "/new") "/q" =
      (worldCancel,
       [Event.dialog "Missing Files",
        Event.warning "Update process has been canceled by the user."]) ∧
    (∀ a v, Event.setAttr a v ∉
      (updateCustomStepStrings worldCancel "guide" (some "/new") "/q").2) := by
  have hev : (updateCustomStepStrings worldCancel "guide" (some "/new") "/q").2 =
      [Event.dialog "Missing Files",
       Event.warning "Update process has been canceled by the user."] := by decide
  refine ⟨by decide, by decide, by decide, ?_⟩
  intro a v
  rw [hev]
  simp

/-- C2 (amended): when the previously-extracted common path occurs in neither
attribute string, both substitutions are the identity; and whenever the run
reaches the write step (both strings parse into entries and either no
referenced file is missing or the user does not answer Cancel), both
attributes are written back — with their unchanged values. -/
theorem updateCustomStepStrings_identity (w : World)
    (guide np common pre post : String) (prePaths postPaths : List String)
    (hpre : lookupAttr w (guide ++ ".preCustomStep") = some pre)
    (hpost : lookupAttr w (guide ++ ".postCustomStep") = some post)
    (hno1 : ¬ occursIn common pre)
    (hno2 : ¬ occursIn common post)
    (hpp : parsePaths pre = Except.ok prePaths)
    (hqq : parsePaths post = Except.ok postPaths)
    (hgo : (checkFileExistence w.fs np (prePaths ++ postPaths)).2 = [] ∨
      w.dialogAnswer ≠ "Cancel") :
    pyReplace pre common np = pre ∧ pyReplace post common np = post ∧
    Event.setAttr (guide ++ ".preCustomStep") pre ∈
      (updateCustomStepStrings w guide (some np) common).2 ∧
    Event.setAttr (guide ++ ".postCustomStep") post ∈
      (updateCustomStepStrings w guide (some np) common).2 ∧
    (updateCustomStepStrings w guide (some np) common).1.attrs =
      writeAttr (writeAttr w.attrs (guide ++ ".preCustomStep") pre)
        (guide ++ ".postCustomStep") post := by
  have hid1 : pyReplace pre common np = pre := pyReplace_id pre common np hno1
  have hid2 : pyReplace post common np = post := pyReplace_id post common np hno2
  have hkey :
      Event.setAttr (guide ++ ".preCustomStep") pre ∈
        (updateCustomStepStrings w guide (some np) common).2 ∧
      Event.setAttr (guide ++ ".postCustomStep") post ∈
        (updateCustomStepStrings w guide (some np) common).2 ∧
      (updateCustomStepStrings w guide (some np) common).1.attrs =
        writeAttr (writeAttr w.attrs (guide ++ ".preCustomStep") pre)
          (guide ++ ".postCustomStep") post := by
    simp only [updateCustomStepStrings, hpre, hpost, hid1, hid2, hpp, hqq]
    by_cases hm : ((checkFileExistence w.fs np (prePaths ++ postPaths)).2).isEmpty = true
    · rw [if_pos hm]
      exact ⟨by simp, by simp, rfl⟩
    · have hans : ¬ w.dialogAnswer = "Cancel" := by
        rcases hgo with hmiss | hans
        · exact absurd (by rw [hmiss]; rfl) hm
        · exact hans
      rw [if_neg hm, if_neg hans]
      exact ⟨by simp, by simp, rfl⟩
  exact ⟨hid1, hid2, hkey.1, hkey.2.1, hkey.2.2⟩

/-- C2 witness for the amended claim: in `worldPresent` the common path `/q`
occurs in neither attribute, both files exist, and both attributes are
written back unchanged. -/
theorem updateCustomStepStrings_identity_witness :
    pyReplace "a | /p/x.py" "/q" "/new" = "a | /p/x.py" ∧
    pyReplace "b | /p/y.py" "/q" "/new" = "b | /p/y.py" ∧
    Event.setAttr ("guide" ++ ".preCustomStep") "a | /p/x.py" ∈
      (updateCustomStepStrings worldPresent "guide" (some "/new") "/q").2 ∧
    Event.setAttr ("guide" ++ ".postCustomStep") "b | /p/y.py" ∈
      (updateCustomStepStrings worldPresent "guide" (some "/new") "/q").2 ∧
    (updateCustomStepStrings worldPresent "guide" (some "/new") "/q").1.attrs =
      writeAttr (writeAttr worldPresent.attrs ("guide" ++ ".preCustomStep") "a | /p/x.py")
        ("guide" ++ ".postCustomStep") "b | /p/y.py" :=
  updateCustomStepStrings_identity worldPresent "guide" "/new" "/q" "a | /p/x.py"
    "b | /p/y.py" ["/p/x.py"] ["/p/y.py"] rfl rfl (by decide) (by decide) rfl rfl
    (Or.inl (by decide))

/-- C3: in every run in which the existence check reports at least one
missing file and the user chooses Cancel, no attribute write is performed:
the world (hence both guide-node attributes) is unchanged, a warning is
logged, and no success dialog is shown. -/
theorem updateCustomStepStrings_cancel (w : World)
    (guide np common pre post : String) (prePaths postPaths : List String)
    (hpre : lookupAttr w (guide ++ ".preCustomStep") = some pre)
    (hpost : lookupAttr w (guide ++ ".postCustomStep") = some post)
    (hpp : parsePaths (pyReplace pre common np) = Except.ok prePaths)
    (hqq : parsePaths (pyReplace post common np) = Except.ok postPaths)
    (hmiss : (checkFileExistence w.fs np (prePaths ++ postPaths)).2 ≠ [])
    (hans : w.dialogAnswer = "Cancel") :
    updateCustomStepStrings w guide (some np) common =
      (w, [Event.dialog "Missing Files",
           Event.warning "Update process has been canceled by the user."]) ∧
    (∀ a v, Event.setAttr a v ∉
      (updateCustomStepStrings w guide (some np) common).2) ∧
    Event.dialog "Success" ∉ (updateCustomStepStrings w guide (some np) common).2 := by
  have hstep : updateCustomStepStrings w guide (some np) common =
      (w, [Event.dialog "Missing Files",
           Event.warning "Update process has been canceled by the user."]) := by
    simp only [updateCustomStepStrings, hpre, hpost, hpp, hqq]
    rw [if_neg (fun hc => hmiss (List.isEmpty_iff.mp hc)), if_pos hans]
  refine ⟨hstep, ?_, ?_⟩
  · intro a v
    rw [hstep]
    simp
  · rw [hstep]
    simp

/-- C3 witness: `worldCancel` with common path `/old` and new path `/new` —
the referenced files are missing and the user cancels. -/
theorem updateCustomStepStrings_cancel_witness :
    updateCustomStepStrings worldCancel "guide" (some "/new") "/old" =
      (worldCancel,
       [Event.dialog "Missing Files",
        Event.warning "Update process has been canceled by the user."]) :=
  (updateCustomStepStrings_cancel worldCancel "guide" "/new" "/old" "a | /old/x.py"
    "b | /old/y.py" ["/new/x.py"] ["/new/y.py"] rfl rfl rfl rfl (by decide) rfl).1

/-- C4: both substituted attribute strings are computed before either write is
issued, so in every execution whose event trace shows the exception handler
fired (a read, substitution or re-parse failure was caught), no attribute was
written: the world is unchanged and the trace holds no write event — a
computation failure can never leave one attribute updated and the other
stale. -/
theorem updateCustomStepStrings_atomic (w : World) (guide : String)
    (np : Option String) (common msg : String)
    (hexc : Event.errorMsg msg ∈ (updateCustomStepStrings w guide np common).2) :
    (updateCustomStepStrings w guide np common).1 = w ∧
    ∀ a v, Event.setAttr a v ∉ (updateCustomStepStrings w guide np common).2 := by
  cases hpre : lookupAttr w (guide ++ ".preCustomStep") with
  | none =>
    refine ⟨by simp [updateCustomStepStrings, hpre], ?_⟩
    intro a v
    simp [updateCustomStepStrings, hpre]
  | some pre =>
    cases hpost : lookupAttr w (guide ++ ".postCustomStep") with
    | none =>
      refine ⟨by simp [updateCustomStepStrings, hpre, hpost], ?_⟩
      intro a v
      simp [updateCustomStepStrings, hpre, hpost]
    | some post =>
      cases np with
      | none =>
        refine ⟨by simp [updateCustomStepStrings, hpre, hpost], ?_⟩
        intro a v
        simp [updateCustomStepStrings, hpre, hpost]
      | some npp =>
        cases hpp : parsePaths (pyReplace pre common npp) with
        | error e =>
          refine ⟨by simp [updateCustomStepStrings, hpre, hpost, hpp], ?_⟩
          intro a v
          simp [updateCustomStepStrings, hpre, hpost, hpp]
        | ok prePaths =>
          cases hqq : parsePaths (pyReplace post common npp) with
          | error e =>
            refine ⟨by simp [updateCustomStepStrings, hpre, hpost, hpp, hqq], ?_⟩
            intro a v
            simp [updateCustomStepStrings, hpre, hpost, hpp, hqq]
          | ok postPaths =>
            exfalso
            simp only [updateCustomStepStrings, hpre, hpost, hpp, hqq] at hexc
            by_cases hm : ((checkFileExistence w.fs npp
                (prePaths ++ postPaths)).2).isEmpty = true
            · rw [if_pos hm] at hexc
              simp at hexc
            · rw [if_neg hm] at hexc
              by_cases ha : w.dialogAnswer = "Cancel"
              · rw [if_pos ha] at hexc
                simp at hexc
              · rw [if_neg ha] at hexc
                simp at hexc

/-- C4 witness: a world with no attributes at all — the read fails, the
handler fires, and no write happened. -/
theorem updateCustomStepStrings_atomic_witness :
    Event.errorMsg "Failed to update custom step strings: getAttr" ∈
      (updateCustomStepStrings ⟨[], [], [], "", true⟩ "guide" (some "/n") "/o").2 ∧
    (updateCustomStepStrings ⟨[], [], [], "", true⟩ "guide" (some "/n") "/o").1 =
      ⟨[], [], [], "", true⟩ :=
  ⟨by decide,
   (updateCustomStepStrings_atomic ⟨[], [], [], "", true⟩ "guide" (some "/n") "/o"
      "Failed to update custom step strings: getAttr" (by decide)).1⟩

/-- C9: when `duplicateFolder` fails — the source folder does not exist, or
the recursive copy raises — the failure is reported via the host error
mechanism (`cmds.error`, which raises a `RuntimeError`), the operation yields
the failure indicator (`Except.error`; it never produces a folder path), and
the duplicate-confirm dialog action does not proceed to invoke the attribute
update: the raise propagates out of the callback, so the whole trace of the
action is exactly the failure report — no attribute write and no update
activity at all. -/
theorem onAddVer_failure (w : World) (src guide common : String)
    (h : src ∉ w.fs ∨ w.copyOk = false) :
    ∃ msg,
      (duplicateFolder w src).2.1 = Except.error msg ∧
      (∀ f, (duplicateFolder w src).2.1 ≠ Except.ok f) ∧
      (duplicateFolder w src).2.2 = [Event.errorMsg msg] ∧
      onAddVer w src guide common = (w, [Event.errorMsg msg]) ∧
      (∀ a v, Event.setAttr a v ∉ (onAddVer w src guide common).2) ∧
      Event.dialog "Success" ∉ (onAddVer w src guide common).2 := by
  by_cases hsrc : src ∈ w.fs
  · have hcopy : w.copyOk = false := by
      rcases h with h1 | h1
      · exact absurd hsrc h1
      · exact h1
    have hdup : duplicateFolder w src =
        (w, Except.error ("Failed to duplicate folder: " ++ incrementVersion src),
          [Event.errorMsg ("Failed to duplicate folder: " ++ incrementVersion src)]) := by
      simp only [duplicateFolder]
      rw [if_pos hsrc, if_neg (by simp [hcopy])]
    refine ⟨"Failed to duplicate folder: " ++ incrementVersion src,
      by rw [hdup], ?_, by rw [hdup], ?_, ?_, ?_⟩
    · intro f
      rw [hdup]
      simp
    · simp only [onAddVer, hdup]
    · intro a v
      simp only [onAddVer, hdup]
      simp
    · simp only [onAddVer, hdup]
      simp
  · have hdup : duplicateFolder w src =
        (w, Except.error ("Source folder does not exist: " ++ src),
          [Event.errorMsg ("Source folder does not exist: " ++ src)]) := by
      simp only [duplicateFolder]
      rw [if_neg hsrc]
    refine ⟨"Source folder does not exist: " ++ src,
      by rw [hdup], ?_, by rw [hdup], ?_, ?_, ?_⟩
    · intro f
      rw [hdup]
      simp
    · simp only [onAddVer, hdup]
    · intro a v
      simp only [onAddVer, hdup]
      simp
    · simp only [onAddVer, hdup]
      simp

/-- C9 witness at a concrete world whose filesystem does not contain the
source folder of the duplicate action. -/
theorem onAddVer_failure_witness :
    ∃ msg,
      (duplicateFolder worldPresent "/proj/shot_v01").2.1 = Except.error msg ∧
      (∀ f, (duplicateFolder worldPresent "/proj/shot_v01").2.1 ≠ Except.ok f) ∧
      (duplicateFolder worldPresent "/proj/shot_v01").2.2 = [Event.errorMsg msg] ∧
      onAddVer worldPresent "/proj/shot_v01" "guide" "/old" =
        (worldPresent, [Event.errorMsg msg]) ∧
      (∀ a v, Event.setAttr a v ∉
        (onAddVer worldPresent "/proj/shot_v01" "guide" "/old").2) ∧
      Event.dialog "Success" ∉
        (onAddVer worldPresent "/proj/shot_v01" "guide" "/old").2 :=
  onAddVer_failure worldPresent "/proj/shot_v01" "guide" "/old" (Or.inl (by decide))


end G3dMGU
